import Mathlib

/-!
Verification of the `Chain` reader combinator from `src/io/read/chain.rs`.

The combinator wraps two inner readers `first` and `second` together with a
boolean flag `done_first`, and forwards each stream operation (`poll_read`,
`poll_read_vectored`, `poll_fill_buf`, `consume`) to the currently active
inner reader, switching from `first` to `second` once `first` reports
end-of-stream.

Shallow embedding choices:
* `Poll α` mirrors `task::Poll`: `Ready` or `Pending`.
* An inner reader of state type `σ` is a `Reader σ`: each poll operation is a
  pure function from the reader state to a `Poll` outcome paired with the new
  reader state (a poll takes `&mut self` in Rust, so the state may change even
  on `Pending` or on an error).
* `poll_read` on the Rust side fills a caller buffer and returns the count
  `usize`; here it returns the list of bytes written (whose length is the
  reported count) and takes the caller buffer's length as input, so
  `buf.is_empty()` becomes `bufLen = 0` and `Ok(0)` becomes `Except.ok []`.
* `poll_read_vectored` takes the list of destination-buffer lengths (the Rust
  `bufs: &mut [IoSliceMut]`) and returns the aggregate count;
  `bufs.is_empty()` becomes `bufs = []`.
* `poll_fill_buf` returns the borrowed view as a list of bytes.
* I/O errors are opaque and modelled as `Nat` codes; the combinator never
  inspects them.
-/

deriving instance DecidableEq for Except

namespace AsyncStd

/-- `task::Poll`: an operation either completes with a value or suspends. -/
inductive Poll (α : Type) where
  | Ready : α → Poll α
  | Pending : Poll α
deriving DecidableEq, Repr

/-- The abstract readable-stream capability consumed by the combinator:
state-passing versions of `poll_read`, `poll_read_vectored`, `poll_fill_buf`
and `consume` on a reader with state type `σ`. -/
structure Reader (σ : Type) where
  pollRead : σ → Nat → Poll (Except Nat (List Nat)) × σ
  pollReadVectored : σ → List Nat → Poll (Except Nat Nat) × σ
  pollFillBuf : σ → Poll (Except Nat (List Nat)) × σ
  consume : σ → Nat → σ

/-- The `Chain` struct: two inner readers and the `done_first` flag. -/
structure Chain (σ τ : Type) where
  first : σ
  second : τ
  done_first : Bool
deriving DecidableEq, Repr

/-- `Chain::into_inner`: decompose into the two owned readers. -/
def Chain.into_inner (c : Chain σ τ) : σ × τ :=
  (c.first, c.second)

/-- `Chain::get_ref`: the two inner readers as a pair (read-only accessor). -/
def Chain.get_ref (c : Chain σ τ) : σ × τ :=
  (c.first, c.second)

/-- `Chain::poll_read` from `src/io/read/chain.rs` lines 101-119:
if `done_first` is false, poll `first`; `Ok(0)` with a non-empty caller
buffer sets `done_first` and falls through to `second` within the same call;
`Ok(n)` otherwise returns immediately, as does an error; `Pending` (through
the `ready!` macro) propagates. Once `done_first` holds, delegate to
`second`. -/
def Chain.poll_read (R1 : Reader σ) (R2 : Reader τ) (c : Chain σ τ)
    (bufLen : Nat) : Poll (Except Nat (List Nat)) × Chain σ τ :=
  if !c.done_first then
    match R1.pollRead c.first bufLen with
    | (Poll.Pending, s) => (Poll.Pending, { c with first := s })
    | (Poll.Ready (Except.ok bs), s) =>
      if bs.length = 0 ∧ bufLen ≠ 0 then
        match R2.pollRead c.second bufLen with
        | (r, t) => (r, { first := s, second := t, done_first := true })
      else
        (Poll.Ready (Except.ok bs), { c with first := s })
    | (Poll.Ready (Except.error e), s) =>
      (Poll.Ready (Except.error e), { c with first := s })
  else
    match R2.pollRead c.second bufLen with
    | (r, t) => (r, { c with second := t })

/-- `Chain::poll_read_vectored` from `src/io/read/chain.rs` lines 121-138:
same protocol as `poll_read`, with the exhaustion guard
`Ok(0) if !bufs.is_empty()`, i.e. aggregate count zero and a non-empty batch
of destination buffers. -/
def Chain.poll_read_vectored (R1 : Reader σ) (R2 : Reader τ) (c : Chain σ τ)
    (bufs : List Nat) : Poll (Except Nat Nat) × Chain σ τ :=
  if !c.done_first then
    match R1.pollReadVectored c.first bufs with
    | (Poll.Pending, s) => (Poll.Pending, { c with first := s })
    | (Poll.Ready (Except.ok n), s) =>
      if n = 0 ∧ bufs ≠ [] then
        match R2.pollReadVectored c.second bufs with
        | (r, t) => (r, { first := s, second := t, done_first := true })
      else
        (Poll.Ready (Except.ok n), { c with first := s })
    | (Poll.Ready (Except.error e), s) =>
      (Poll.Ready (Except.error e), { c with first := s })
  else
    match R2.pollReadVectored c.second bufs with
    | (r, t) => (r, { c with second := t })

/-- `Chain::poll_fill_buf` from `src/io/read/chain.rs` lines 142-162:
if `done_first` is false, ask `first` for its buffered view; an empty view
sets `done_first` and falls through to `second` within the same call; a
non-empty view returns immediately, as does an error; `Pending` propagates. -/
def Chain.poll_fill_buf (R1 : Reader σ) (R2 : Reader τ) (c : Chain σ τ) :
    Poll (Except Nat (List Nat)) × Chain σ τ :=
  if !c.done_first then
    match R1.pollFillBuf c.first with
    | (Poll.Pending, s) => (Poll.Pending, { c with first := s })
    | (Poll.Ready (Except.ok bs), s) =>
      if bs.isEmpty then
        match R2.pollFillBuf c.second with
        | (r, t) => (r, { first := s, second := t, done_first := true })
      else
        (Poll.Ready (Except.ok bs), { c with first := s })
    | (Poll.Ready (Except.error e), s) =>
      (Poll.Ready (Except.error e), { c with first := s })
  else
    match R2.pollFillBuf c.second with
    | (r, t) => (r, { c with second := t })

/-- `Chain::consume` from `src/io/read/chain.rs` lines 164-172: forward the
amount to `first` if `done_first` is false, otherwise to `second`. -/
def Chain.consume (R1 : Reader σ) (R2 : Reader τ) (c : Chain σ τ)
    (amt : Nat) : Chain σ τ :=
  if !c.done_first then
    { c with first := R1.consume c.first amt }
  else
    { c with second := R2.consume c.second amt }

/-- One operation of the combinator's four-operation interface. -/
inductive ChainOp where
  | read : Nat → ChainOp
  | readVectored : List Nat → ChainOp
  | fillBuf : ChainOp
  | consumeAmt : Nat → ChainOp
deriving DecidableEq, Repr

/-- The caller-visible outcome of one operation. -/
inductive ChainOut where
  | bytes : Poll (Except Nat (List Nat)) → ChainOut
  | count : Poll (Except Nat Nat) → ChainOut
  | unit : ChainOut
deriving DecidableEq, Repr

/-- Apply one operation to a `Chain`, returning its caller-visible outcome
and the resulting combinator state. -/
def Chain.step (R1 : Reader σ) (R2 : Reader τ) (c : Chain σ τ) :
    ChainOp → ChainOut × Chain σ τ
  | ChainOp.read k =>
    match Chain.poll_read R1 R2 c k with
    | (r, c') => (ChainOut.bytes r, c')
  | ChainOp.readVectored bufs =>
    match Chain.poll_read_vectored R1 R2 c bufs with
    | (r, c') => (ChainOut.count r, c')
  | ChainOp.fillBuf =>
    match Chain.poll_fill_buf R1 R2 c with
    | (r, c') => (ChainOut.bytes r, c')
  | ChainOp.consumeAmt amt => (ChainOut.unit, Chain.consume R1 R2 c amt)

/-- Apply a sequence of operations, collecting the caller-visible trace. -/
def Chain.run (R1 : Reader σ) (R2 : Reader τ) (c : Chain σ τ) :
    List ChainOp → List ChainOut × Chain σ τ
  | [] => ([], c)
  | op :: ops =>
    match Chain.step R1 R2 c op with
    | (o, c') =>
      match Chain.run R1 R2 c' ops with
      | (os, c'') => (o :: os, c'')

/-- A deterministic in-memory byte source (the role played by `io::Cursor`
in the repository's test): its state is the list of bytes not yet read; a
plain read hands out the next `min k remaining` bytes. -/
def listReader : Reader (List Nat) where
  pollRead := fun rem k => (Poll.Ready (Except.ok (rem.take k)), rem.drop k)
  pollReadVectored := fun rem bufs =>
    let k := bufs.foldr (· + ·) 0
    (Poll.Ready (Except.ok (min k rem.length)), rem.drop k)
  pollFillBuf := fun rem => (Poll.Ready (Except.ok rem), rem)
  consume := fun rem amt => rem.drop amt

/-- An inner reader that is already at end-of-stream: every poll completes
with zero bytes. -/
def eofReader : Reader Unit where
  pollRead := fun s _ => (Poll.Ready (Except.ok []), s)
  pollReadVectored := fun s _ => (Poll.Ready (Except.ok 0), s)
  pollFillBuf := fun s => (Poll.Ready (Except.ok []), s)
  consume := fun s _ => s

/-- An inner reader whose every poll suspends. -/
def pendingReader : Reader Unit where
  pollRead := fun s _ => (Poll.Pending, s)
  pollReadVectored := fun s _ => (Poll.Pending, s)
  pollFillBuf := fun s => (Poll.Pending, s)
  consume := fun s _ => s

/-- An inner reader whose every poll fails with error code `e`. -/
def errReader (e : Nat) : Reader Unit where
  pollRead := fun s _ => (Poll.Ready (Except.error e), s)
  pollReadVectored := fun s _ => (Poll.Ready (Except.error e), s)
  pollFillBuf := fun s => (Poll.Ready (Except.error e), s)
  consume := fun s _ => s

/-- A list-state reader whose every poll suspends and whose `consume` is a
no-op; used to show that results do not depend on the inactive reader. -/
def stuckReader : Reader (List Nat) where
  pollRead := fun rem _ => (Poll.Pending, rem)
  pollReadVectored := fun rem _ => (Poll.Pending, rem)
  pollFillBuf := fun rem => (Poll.Pending, rem)
  consume := fun rem _ => rem

/-- The plain-read loop: repeatedly call `poll_read` with a buffer of length
`k`, accumulating the bytes read, until a read reports zero bytes
(end-of-stream). `fuel` bounds the number of iterations; `none` means the
fuel ran out or the chain suspended or failed. -/
def readToEnd (R1 : Reader σ) (R2 : Reader τ) (k : Nat) :
    Nat → Chain σ τ → List Nat → Option (List Nat)
  | 0, _, _ => none
  | Nat.succ fuel, c, acc =>
    match Chain.poll_read R1 R2 c k with
    | (Poll.Ready (Except.ok bs), c') =>
      if bs.length = 0 then some acc
      else readToEnd R1 R2 k fuel c' (acc ++ bs)
    | (Poll.Ready (Except.error _), _) => none
    | (Poll.Pending, _) => none

/-- Unfolding lemma for the plain-read operation of an in-memory source. -/
theorem listReader_pollRead_eq (rem : List Nat) (k : Nat) :
    listReader.pollRead rem k = (Poll.Ready (Except.ok (rem.take k)), rem.drop k) := rfl

/-- Helper for the draining loop: once the chain is past the first source,
the loop returns the accumulator followed by the rest of the second source. -/
theorem readToEnd_second_aux (k : Nat) (hk : 1 ≤ k) :
    ∀ (fuel : Nat) (B acc A : List Nat), B.length < fuel →
      readToEnd listReader listReader k fuel ⟨A, B, true⟩ acc = some (acc ++ B) := by
  intro fuel
  induction fuel with
  | zero => intro B acc A h; omega
  | succ fuel ih =>
    intro B acc A h
    cases B with
    | nil => simp [readToEnd, Chain.poll_read, listReader_pollRead_eq]
    | cons b bt =>
      have htk : (List.take k (b :: bt)).length ≠ 0 := by
        simp only [List.length_take, List.length_cons]
        omega
      simp only [readToEnd, Chain.poll_read, listReader_pollRead_eq, Bool.not_true,
        Bool.false_eq_true, if_false, htk, ite_false]
      rw [ih]
      · rw [List.append_assoc, List.take_append_drop]
      · simp only [List.length_drop, List.length_cons]
        simp only [List.length_cons] at h
        omega

/-- Helper for the draining loop: starting with `done_first = false`, the
loop returns the accumulator, then all of the first source's bytes, then all
of the second source's bytes. -/
theorem readToEnd_concat_aux (k : Nat) (hk : 1 ≤ k) (B : List Nat) :
    ∀ (fuel : Nat) (A acc : List Nat), A.length + B.length < fuel →
      readToEnd listReader listReader k fuel ⟨A, B, false⟩ acc = some (acc ++ A ++ B) := by
  intro fuel
  induction fuel with
  | zero => intro A acc h; omega
  | succ fuel ih =>
    intro A acc h
    cases A with
    | nil =>
      have hk0 : k ≠ 0 := by omega
      simp only [readToEnd, Chain.poll_read, listReader_pollRead_eq, Bool.not_false,
        if_true, List.take_nil, List.length_nil, List.drop_nil, ne_eq, hk0,
        not_false_iff, and_true, true_and, ite_true, if_true]
      cases B with
      | nil => simp
      | cons b bt =>
        have htk : (List.take k (b :: bt)).length ≠ 0 := by
          simp only [List.length_take, List.length_cons]
          omega
        rw [if_neg htk, readToEnd_second_aux k hk]
        · rw [List.append_nil, List.append_assoc, List.take_append_drop]
        · simp only [List.length_drop, List.length_cons]
          simp only [List.nil_append, List.length_nil, List.length_cons] at h
          omega
    | cons a arest =>
      have htk : (List.take k (a :: arest)).length ≠ 0 := by
        simp only [List.length_take, List.length_cons]
        omega
      have hcond : ¬(((a :: arest).take k).length = 0 ∧ k ≠ 0) := by
        intro hx
        exact htk hx.1
      simp only [readToEnd, Chain.poll_read, listReader_pollRead_eq, Bool.not_false,
        if_true, hcond, ite_false, htk, false_and, if_false]
      rw [ih]
      · simp
      · simp only [List.length_drop, List.length_cons]
        simp only [List.length_cons] at h
        omega

/-- Claim C1: chaining two in-memory sources holding the byte lists `A` and
`B` and reading the combined stream to completion with a plain-read loop
(buffer size `k ≥ 1`) yields exactly the concatenation `A ++ B`, whose
length is `A.length + B.length` (the total reported length, since the loop
accumulates exactly the bytes each call reports). -/
theorem chain_read_concat (A B : List Nat) (k : Nat) (hk : 1 ≤ k) :
    readToEnd listReader listReader k (A.length + B.length + 1) ⟨A, B, false⟩ []
      = some (A ++ B)
    ∧ (A ++ B).length = A.length + B.length := by
  constructor
  · have h := readToEnd_concat_aux k hk B (A.length + B.length + 1) A [] (by omega)
    simpa using h
  · simp

theorem chain_read_concat_witness :
    readToEnd listReader listReader 1
        (([0, 1, 2] : List Nat).length + ([3, 4, 5] : List Nat).length + 1)
        ⟨[0, 1, 2], [3, 4, 5], false⟩ [] = some ([0, 1, 2] ++ [3, 4, 5])
    ∧ (([0, 1, 2] : List Nat) ++ [3, 4, 5]).length
        = ([0, 1, 2] : List Nat).length + ([3, 4, 5] : List Nat).length :=
  chain_read_concat [0, 1, 2] [3, 4, 5] 1 (by decide)

/-- Helper for the monotonicity claim: a single operation on a chain whose
`done_first` flag is set keeps the flag set, leaves the first reader's state
untouched, and does not depend on the first reader at all. -/
theorem step_done_aux (R1 R1' : Reader σ) (R2 : Reader τ)
    (c : Chain σ τ) (op : ChainOp) (hc : c.done_first = true) :
    Chain.step R1 R2 c op = Chain.step R1' R2 c op
    ∧ (Chain.step R1 R2 c op).2.done_first = true
    ∧ (Chain.step R1 R2 c op).2.first = c.first := by
  obtain ⟨f, sec, d⟩ := c
  simp only [Chain.done_first] at hc
  subst hc
  cases op <;>
    simp [Chain.step, Chain.poll_read, Chain.poll_read_vectored,
      Chain.poll_fill_buf, Chain.consume]

/-- Claim C2: `done_first` is monotone, and the first source is dead once it
is set: from any chain state with `done_first = true`, every sequence of
plain reads, vectored reads, buffered peeks and consumes keeps
`done_first = true`, leaves the first reader's state exactly as it was, and
yields a trace and final state that do not depend on the first reader at all
(replacing it by any other reader `R1'` changes nothing). -/
theorem done_first_monotone (R1 R1' : Reader σ) (R2 : Reader τ)
    (c : Chain σ τ) (ops : List ChainOp) (hc : c.done_first = true) :
    (Chain.run R1 R2 c ops).2.done_first = true
    ∧ (Chain.run R1 R2 c ops).2.first = c.first
    ∧ Chain.run R1 R2 c ops = Chain.run R1' R2 c ops := by
  induction ops generalizing c with
  | nil => exact ⟨hc, rfl, rfl⟩
  | cons op ops ih =>
    obtain ⟨hop, hdone, hfst⟩ := step_done_aux R1 R1' R2 c op hc
    obtain ⟨ih1, ih2, ih3⟩ := ih (Chain.step R1 R2 c op).2 hdone
    refine ⟨?_, ?_, ?_⟩
    · simpa only [Chain.run] using ih1
    · simp only [Chain.run]
      rw [ih2, hfst]
    · simp only [Chain.run]
      rw [← hop, ih3]

theorem done_first_monotone_witness :
    (Chain.run pendingReader eofReader ⟨(), (), true⟩
        [ChainOp.read 1, ChainOp.fillBuf, ChainOp.consumeAmt 2]).2.done_first = true
    ∧ (Chain.run pendingReader eofReader ⟨(), (), true⟩
        [ChainOp.read 1, ChainOp.fillBuf, ChainOp.consumeAmt 2]).2.first = ()
    ∧ Chain.run pendingReader eofReader ⟨(), (), true⟩
          [ChainOp.read 1, ChainOp.fillBuf, ChainOp.consumeAmt 2]
        = Chain.run (errReader 3) eofReader ⟨(), (), true⟩
          [ChainOp.read 1, ChainOp.fillBuf, ChainOp.consumeAmt 2] :=
  done_first_monotone pendingReader (errReader 3) eofReader ⟨(), (), true⟩
    [ChainOp.read 1, ChainOp.fillBuf, ChainOp.consumeAmt 2] rfl

/-- Claim C3, counterexample: a vectored read whose batch consists of a
single zero-length destination buffer. Every buffer in the batch is empty,
the first source completes with aggregate length zero, and yet the code sets
`done_first` (the guard is `!bufs.is_empty()`, which only checks that the
batch holds at least one buffer), contradicting the claim that a zero
aggregate with no non-empty destination buffer never flips the flag. -/
theorem vectored_empty_batch_counterexample :
    (∀ b ∈ ([0] : List Nat), b = 0)
    ∧ (Chain.poll_read_vectored eofReader eofReader ⟨(), (), false⟩ [0]).2.done_first
        = true := by
  decide

/-- Claim C3 as amended: in `poll_read_vectored` the transition to the second
source fires exactly when the first source completes with zero aggregate
length and the batch contains at least one destination buffer, regardless of
the buffers' own lengths; a zero aggregate for an empty batch (no buffers at
all) is returned as-is without flipping the flag, and with a non-empty batch
the read falls through to the second source in the same call. -/
theorem vectored_transition_condition (R1 : Reader σ) (R2 : Reader τ)
    (c : Chain σ τ) (bufs : List Nat) (n : Nat) (s : σ)
    (hc : c.done_first = false)
    (h1 : R1.pollReadVectored c.first bufs = (Poll.Ready (Except.ok n), s)) :
    ((Chain.poll_read_vectored R1 R2 c bufs).2.done_first = true ↔ (n = 0 ∧ bufs ≠ []))
    ∧ (n = 0 → bufs = [] →
        Chain.poll_read_vectored R1 R2 c bufs =
          (Poll.Ready (Except.ok 0), ⟨s, c.second, false⟩))
    ∧ (n = 0 → bufs ≠ [] →
        Chain.poll_read_vectored R1 R2 c bufs =
          ((R2.pollReadVectored c.second bufs).1,
            ⟨s, (R2.pollReadVectored c.second bufs).2, true⟩)) := by
  simp only [Chain.poll_read_vectored, hc, Bool.not_false, if_true, h1]
  by_cases hcond : n = 0 ∧ bufs ≠ []
  · rw [if_pos hcond]
    refine ⟨by simpa using hcond, ?_, ?_⟩
    · intro h0 hnil
      exact absurd hnil hcond.2
    · intro _ _
      simp
  · rw [if_neg hcond]
    refine ⟨by simpa [hc] using hcond, ?_, ?_⟩
    · intro h0 hnil
      subst h0
      obtain ⟨f, sec, d⟩ := c
      simp only [Chain.done_first] at hc
      subst hc
      simp
    · intro h0 hne
      exact absurd ⟨h0, hne⟩ hcond

theorem vectored_transition_condition_witness :
    (Chain.poll_read_vectored eofReader eofReader ⟨(), (), false⟩ [2]).2.done_first = true
    ∧ Chain.poll_read_vectored eofReader eofReader ⟨(), (), false⟩ [2]
        = (Poll.Ready (Except.ok 0), ⟨(), (), true⟩) := by
  have h := vectored_transition_condition eofReader eofReader ⟨(), (), false⟩ [2] 0 () rfl rfl
  exact ⟨h.1.mpr ⟨rfl, by decide⟩, h.2.2 rfl (by decide)⟩

/-- Claim C4: in `poll_read` with a non-empty caller buffer, a zero-length
completion from the not-yet-exhausted first source sets `done_first` and
forwards the read to the second source within the same call; the chain's
result is exactly the second source's result, so the caller never sees a
spurious zero-length result before the second source is tried. -/
theorem read_transition_same_call (R1 : Reader σ) (R2 : Reader τ)
    (c : Chain σ τ) (k : Nat) (s : σ)
    (hc : c.done_first = false) (hk : k ≠ 0)
    (h1 : R1.pollRead c.first k = (Poll.Ready (Except.ok []), s)) :
    Chain.poll_read R1 R2 c k =
      ((R2.pollRead c.second k).1, ⟨s, (R2.pollRead c.second k).2, true⟩) := by
  simp only [Chain.poll_read, hc, Bool.not_false, if_true, h1]
  rw [if_pos ⟨rfl, hk⟩]

theorem read_transition_same_call_witness :
    Chain.poll_read eofReader listReader ⟨(), [7, 8], false⟩ 1 =
      ((listReader.pollRead [7, 8] 1).1, ⟨(), (listReader.pollRead [7, 8] 1).2, true⟩) :=
  read_transition_same_call eofReader listReader ⟨(), [7, 8], false⟩ 1 () rfl
    (by decide) rfl

/-- Claim C5: a plain read with a zero-length caller buffer while the first
source is not exhausted returns the first source's zero-length completion
as-is and leaves `done_first` false; a subsequent read with a non-empty
buffer still reads from the first source and returns its bytes. -/
theorem read_empty_buf_noop (R1 : Reader σ) (R2 : Reader τ)
    (c : Chain σ τ) (s : σ)
    (hc : c.done_first = false)
    (h1 : R1.pollRead c.first 0 = (Poll.Ready (Except.ok []), s)) :
    Chain.poll_read R1 R2 c 0 = (Poll.Ready (Except.ok []), ⟨s, c.second, false⟩)
    ∧ (∀ k (bs : List Nat) (s' : σ), k ≠ 0 → bs ≠ [] →
        R1.pollRead s k = (Poll.Ready (Except.ok bs), s') →
        Chain.poll_read R1 R2 ⟨s, c.second, false⟩ k =
          (Poll.Ready (Except.ok bs), ⟨s', c.second, false⟩)) := by
  constructor
  · simp only [Chain.poll_read, hc, Bool.not_false, if_true, h1]
    simp
  · intro k bs s' hk hbs h2
    simp only [Chain.poll_read, Bool.not_false, if_true, h2]
    rw [if_neg]
    simp [List.length_eq_zero, hbs]

theorem read_empty_buf_noop_witness :
    Chain.poll_read listReader listReader ⟨[1, 2], [9], false⟩ 0
        = (Poll.Ready (Except.ok []), ⟨[1, 2], [9], false⟩)
    ∧ Chain.poll_read listReader listReader ⟨[1, 2], [9], false⟩ 1
        = (Poll.Ready (Except.ok [1]), ⟨[2], [9], false⟩) := by
  have h := read_empty_buf_noop listReader listReader ⟨[1, 2], [9], false⟩ [1, 2] rfl rfl
  exact ⟨h.1, h.2 1 [1] [2] (by decide) (by decide) rfl⟩

/-- Claim C6: for each of the three poll operations, a failure from the
active inner source (the one selected by `done_first` at entry) is returned
to the caller unmodified, `done_first` keeps its value, and the inactive
source is untouched; in particular a failure from the first source leaves
`done_first` false and the second source is not invoked. -/
theorem error_propagation (R1 : Reader σ) (R2 : Reader τ)
    (c : Chain σ τ) (e : Nat) (k : Nat) (bufs : List Nat) (s : σ) (t : τ) :
    ((c.done_first = false → R1.pollRead c.first k = (Poll.Ready (Except.error e), s) →
      Chain.poll_read R1 R2 c k = (Poll.Ready (Except.error e), ⟨s, c.second, false⟩))
    ∧ (c.done_first = true → R2.pollRead c.second k = (Poll.Ready (Except.error e), t) →
      Chain.poll_read R1 R2 c k = (Poll.Ready (Except.error e), ⟨c.first, t, true⟩)))
    ∧ ((c.done_first = false →
        R1.pollReadVectored c.first bufs = (Poll.Ready (Except.error e), s) →
        Chain.poll_read_vectored R1 R2 c bufs =
          (Poll.Ready (Except.error e), ⟨s, c.second, false⟩))
    ∧ (c.done_first = true →
        R2.pollReadVectored c.second bufs = (Poll.Ready (Except.error e), t) →
        Chain.poll_read_vectored R1 R2 c bufs =
          (Poll.Ready (Except.error e), ⟨c.first, t, true⟩)))
    ∧ ((c.done_first = false → R1.pollFillBuf c.first = (Poll.Ready (Except.error e), s) →
        Chain.poll_fill_buf R1 R2 c = (Poll.Ready (Except.error e), ⟨s, c.second, false⟩))
    ∧ (c.done_first = true → R2.pollFillBuf c.second = (Poll.Ready (Except.error e), t) →
        Chain.poll_fill_buf R1 R2 c = (Poll.Ready (Except.error e), ⟨c.first, t, true⟩))) := by
  obtain ⟨f, sec, d⟩ := c
  refine ⟨⟨?_, ?_⟩, ⟨?_, ?_⟩, ?_, ?_⟩ <;> intro hc h1 <;> subst hc <;>
    simp_all [Chain.poll_read, Chain.poll_read_vectored, Chain.poll_fill_buf]

theorem error_propagation_witness :
    Chain.poll_read (errReader 7) (errReader 9) ⟨(), (), false⟩ 1
        = (Poll.Ready (Except.error 7), ⟨(), (), false⟩)
    ∧ Chain.poll_read (errReader 7) (errReader 9) ⟨(), (), true⟩ 1
        = (Poll.Ready (Except.error 9), ⟨(), (), true⟩)
    ∧ Chain.poll_read_vectored (errReader 7) (errReader 9) ⟨(), (), false⟩ [1]
        = (Poll.Ready (Except.error 7), ⟨(), (), false⟩)
    ∧ Chain.poll_fill_buf (errReader 7) (errReader 9) ⟨(), (), false⟩
        = (Poll.Ready (Except.error 7), ⟨(), (), false⟩) := by
  refine ⟨?_, ?_, ?_, ?_⟩
  · exact (error_propagation (errReader 7) (errReader 9) ⟨(), (), false⟩ 7 1 [1] () ()).1.1
      rfl rfl
  · exact (error_propagation (errReader 7) (errReader 9) ⟨(), (), true⟩ 9 1 [1] () ()).1.2
      rfl rfl
  · exact (error_propagation (errReader 7) (errReader 9) ⟨(), (), false⟩ 7 1 [1] () ()).2.1.1
      rfl rfl
  · exact (error_propagation (errReader 7) (errReader 9) ⟨(), (), false⟩ 7 1 [1] () ()).2.2.1
      rfl rfl

/-- Claim C7: in `poll_fill_buf` with the first source not exhausted, a
zero-length view from the first source sets `done_first`, asks the second
source to fill its buffer within the same call, and returns the second
source's view (whatever it is) to the caller; a non-empty view from the
first source is returned immediately with the flag left false. -/
theorem fill_buf_transition (R1 : Reader σ) (R2 : Reader τ)
    (c : Chain σ τ) (s : σ)
    (hc : c.done_first = false) :
    (R1.pollFillBuf c.first = (Poll.Ready (Except.ok []), s) →
      Chain.poll_fill_buf R1 R2 c =
        ((R2.pollFillBuf c.second).1, ⟨s, (R2.pollFillBuf c.second).2, true⟩))
    ∧ (∀ bs : List Nat, bs ≠ [] →
        R1.pollFillBuf c.first = (Poll.Ready (Except.ok bs), s) →
        Chain.poll_fill_buf R1 R2 c = (Poll.Ready (Except.ok bs), ⟨s, c.second, false⟩)) := by
  constructor
  · intro h1
    simp only [Chain.poll_fill_buf, hc, Bool.not_false, if_true, h1]
    simp
  · intro bs hbs h1
    cases bs with
    | nil => exact absurd rfl hbs
    | cons b bt =>
      simp only [Chain.poll_fill_buf, hc, Bool.not_false, if_true, h1]
      obtain ⟨f, sec, d⟩ := c
      simp_all

theorem fill_buf_transition_witness :
    Chain.poll_fill_buf eofReader listReader ⟨(), [5, 6], false⟩
        = (Poll.Ready (Except.ok [5, 6]), ⟨(), [5, 6], true⟩)
    ∧ Chain.poll_fill_buf listReader listReader ⟨[1], [9], false⟩
        = (Poll.Ready (Except.ok [1]), ⟨[1], [9], false⟩) := by
  refine ⟨?_, ?_⟩
  · exact (fill_buf_transition eofReader listReader ⟨(), [5, 6], false⟩ () rfl).1 rfl
  · exact (fill_buf_transition listReader listReader ⟨[1], [9], false⟩ [1] rfl).2 [1]
      (by decide) rfl

/-- Claim C8: `consume` forwards the amount to exactly the currently active
source: to the first reader when `done_first` is false, otherwise to the
second reader. -/
theorem consume_forwards_active (R1 : Reader σ) (R2 : Reader τ)
    (c : Chain σ τ) (amt : Nat) :
    Chain.consume R1 R2 c amt =
      if c.done_first then ⟨c.first, R2.consume c.second amt, c.done_first⟩
      else ⟨R1.consume c.first amt, c.second, c.done_first⟩ := by
  cases c with
  | mk f s d =>
    cases d <;> simp [Chain.consume]

/-- Claim C9, counterexample: first source at end-of-stream, second source
suspended, non-empty caller buffer. The forwarded operation on the second
source reports `Pending` and the chain propagates it, but `done_first` was
false before the call began and is true afterwards — the flag does not
remain exactly as it was before the call began. -/
theorem pending_flag_counterexample :
    (Chain.poll_read eofReader pendingReader ⟨(), (), false⟩ 1).1 = Poll.Pending
    ∧ (⟨(), (), false⟩ : Chain Unit Unit).done_first = false
    ∧ (Chain.poll_read eofReader pendingReader ⟨(), (), false⟩ 1).2.done_first = true := by
  decide

/-- Claim C9 as amended: a `Pending` from a forwarded operation is propagated
to the caller unchanged, and `done_first` keeps the value it had at the
moment the suspended inner operation was invoked: a `Pending` from the first
source leaves the flag exactly as it was at entry, and whenever a poll
operation returns `Pending` the flag is either unchanged from entry or was
legitimately set within the same call because the first source reported
end-of-stream (with a non-empty request for the plain read, a non-empty
batch for the vectored read), after which the suspension came from the
second source; re-invocation therefore resumes at the same stream point. -/
theorem pending_propagation (R1 : Reader σ) (R2 : Reader τ)
    (c : Chain σ τ) (k : Nat) (bufs : List Nat) :
    ((∀ s, c.done_first = false → R1.pollRead c.first k = (Poll.Pending, s) →
        Chain.poll_read R1 R2 c k = (Poll.Pending, ⟨s, c.second, false⟩))
    ∧ (∀ t, c.done_first = true → R2.pollRead c.second k = (Poll.Pending, t) →
        Chain.poll_read R1 R2 c k = (Poll.Pending, ⟨c.first, t, true⟩))
    ∧ ((Chain.poll_read R1 R2 c k).1 = Poll.Pending →
        (Chain.poll_read R1 R2 c k).2.done_first = c.done_first
        ∨ (c.done_first = false ∧ (Chain.poll_read R1 R2 c k).2.done_first = true
           ∧ k ≠ 0 ∧ ∃ s, R1.pollRead c.first k = (Poll.Ready (Except.ok []), s))))
    ∧ ((∀ s, c.done_first = false →
        R1.pollReadVectored c.first bufs = (Poll.Pending, s) →
        Chain.poll_read_vectored R1 R2 c bufs = (Poll.Pending, ⟨s, c.second, false⟩))
    ∧ (∀ t, c.done_first = true →
        R2.pollReadVectored c.second bufs = (Poll.Pending, t) →
        Chain.poll_read_vectored R1 R2 c bufs = (Poll.Pending, ⟨c.first, t, true⟩))
    ∧ ((Chain.poll_read_vectored R1 R2 c bufs).1 = Poll.Pending →
        (Chain.poll_read_vectored R1 R2 c bufs).2.done_first = c.done_first
        ∨ (c.done_first = false
           ∧ (Chain.poll_read_vectored R1 R2 c bufs).2.done_first = true
           ∧ bufs ≠ []
           ∧ ∃ s, R1.pollReadVectored c.first bufs = (Poll.Ready (Except.ok 0), s))))
    ∧ ((∀ s, c.done_first = false → R1.pollFillBuf c.first = (Poll.Pending, s) →
        Chain.poll_fill_buf R1 R2 c = (Poll.Pending, ⟨s, c.second, false⟩))
    ∧ (∀ t, c.done_first = true → R2.pollFillBuf c.second = (Poll.Pending, t) →
        Chain.poll_fill_buf R1 R2 c = (Poll.Pending, ⟨c.first, t, true⟩))
    ∧ ((Chain.poll_fill_buf R1 R2 c).1 = Poll.Pending →
        (Chain.poll_fill_buf R1 R2 c).2.done_first = c.done_first
        ∨ (c.done_first = false ∧ (Chain.poll_fill_buf R1 R2 c).2.done_first = true
           ∧ ∃ s, R1.pollFillBuf c.first = (Poll.Ready (Except.ok []), s)))) := by
  obtain ⟨f, sec, d⟩ := c
  refine ⟨⟨?_, ?_, ?_⟩, ⟨?_, ?_, ?_⟩, ?_, ?_, ?_⟩
  · intro s hc h1
    simp only [Chain.done_first] at hc
    subst hc
    simp [Chain.poll_read, h1]
  · intro t hc h1
    simp only [Chain.done_first] at hc
    subst hc
    simp [Chain.poll_read, h1]
  · intro hp
    cases d with
    | true =>
      left
      simp [Chain.poll_read]
    | false =>
      rcases h1 : R1.pollRead f k with ⟨p, s⟩
      cases p with
      | Pending => left; simp [Chain.poll_read, h1]
      | Ready r =>
        cases r with
        | error e => simp [Chain.poll_read, h1] at hp
        | ok bs =>
          by_cases hcond : bs.length = 0 ∧ k ≠ 0
          · obtain ⟨hbs, hk0⟩ := hcond
            obtain rfl : bs = [] := List.length_eq_zero.mp hbs
            right
            refine ⟨rfl, ?_, hk0, s, rfl⟩
            simp [Chain.poll_read, h1, hk0]
          · simp only [List.length_eq_zero, ne_eq] at hcond
            simp [Chain.poll_read, h1, hcond] at hp
  · intro s hc h1
    simp only [Chain.done_first] at hc
    subst hc
    simp [Chain.poll_read_vectored, h1]
  · intro t hc h1
    simp only [Chain.done_first] at hc
    subst hc
    simp [Chain.poll_read_vectored, h1]
  · intro hp
    cases d with
    | true =>
      left
      simp [Chain.poll_read_vectored]
    | false =>
      rcases h1 : R1.pollReadVectored f bufs with ⟨p, s⟩
      cases p with
      | Pending => left; simp [Chain.poll_read_vectored, h1]
      | Ready r =>
        cases r with
        | error e => simp [Chain.poll_read_vectored, h1] at hp
        | ok n =>
          by_cases hcond : n = 0 ∧ bufs ≠ []
          · obtain ⟨hn, hbufs⟩ := hcond
            subst hn
            right
            refine ⟨rfl, ?_, hbufs, s, rfl⟩
            simp [Chain.poll_read_vectored, h1, hbufs]
          · simp only [ne_eq] at hcond
            simp [Chain.poll_read_vectored, h1, hcond] at hp
  · intro s hc h1
    simp only [Chain.done_first] at hc
    subst hc
    simp [Chain.poll_fill_buf, h1]
  · intro t hc h1
    simp only [Chain.done_first] at hc
    subst hc
    simp [Chain.poll_fill_buf, h1]
  · intro hp
    cases d with
    | true =>
      left
      simp [Chain.poll_fill_buf]
    | false =>
      rcases h1 : R1.pollFillBuf f with ⟨p, s⟩
      cases p with
      | Pending => left; simp [Chain.poll_fill_buf, h1]
      | Ready r =>
        cases r with
        | error e => simp [Chain.poll_fill_buf, h1] at hp
        | ok bs =>
          cases bs with
          | nil =>
            right
            refine ⟨rfl, ?_, s, rfl⟩
            simp [Chain.poll_fill_buf, h1]
          | cons b bt => simp [Chain.poll_fill_buf, h1] at hp

theorem pending_propagation_witness :
    Chain.poll_read pendingReader eofReader ⟨(), (), false⟩ 1
        = (Poll.Pending, ⟨(), (), false⟩)
    ∧ Chain.poll_fill_buf eofReader pendingReader ⟨(), (), true⟩
        = (Poll.Pending, ⟨(), (), true⟩) := by
  refine ⟨?_, ?_⟩
  · exact (pending_propagation pendingReader eofReader ⟨(), (), false⟩ 1 [1]).1.1 () rfl rfl
  · exact (pending_propagation eofReader pendingReader ⟨(), (), true⟩ 1 [1]).2.2.2.1 ()
      rfl rfl

/-- Claim C10: `consume` never modifies `done_first` and never invokes the
inactive inner source: for every amount, the flag is unchanged, the inactive
reader's state is unchanged, and the result does not depend on the inactive
reader at all. -/
theorem consume_frame (R1 R1' : Reader σ) (R2 R2' : Reader τ)
    (c : Chain σ τ) (amt : Nat) :
    (Chain.consume R1 R2 c amt).done_first = c.done_first
    ∧ (c.done_first = false →
        (Chain.consume R1 R2 c amt).second = c.second
        ∧ Chain.consume R1 R2 c amt = Chain.consume R1 R2' c amt)
    ∧ (c.done_first = true →
        (Chain.consume R1 R2 c amt).first = c.first
        ∧ Chain.consume R1 R2 c amt = Chain.consume R1' R2 c amt) := by
  obtain ⟨f, sec, d⟩ := c
  cases d <;> simp [Chain.consume]

theorem consume_frame_witness :
    (Chain.consume listReader listReader ⟨[1, 2], [3], false⟩ 1).done_first = false
    ∧ (Chain.consume listReader listReader ⟨[1, 2], [3], false⟩ 1).second = [3]
    ∧ Chain.consume listReader listReader ⟨[1, 2], [3], false⟩ 1
        = Chain.consume listReader stuckReader ⟨[1, 2], [3], false⟩ 1 := by
  have h := consume_frame listReader stuckReader listReader stuckReader
    ⟨[1, 2], [3], false⟩ 1
  exact ⟨h.1, (h.2.1 rfl).1, (h.2.1 rfl).2⟩

end AsyncStd
